import Mathlib

set_option maxRecDepth 20000

/-!
Verification development for the `@se-oss/otp` TypeScript library.

The embedding models:
* `src/index.ts` — the `OTP` class (`hotp`, `totp`, `hotpVerify`, `totpVerify`,
  constructor, getters, `setHash`);
* `src/utils.ts` — `numberToWordArray` and `wordArrayToBytes`;
* `src/typings.ts` — the option record types;
* the external collaborators the source consumes (spec §6): the HMAC-SHA1/256/512
  keyed-hash primitives of `crypto-js` and the base32 secret codec of
  `@se-oss/base32`.

Bytes are modelled as natural numbers below 256, byte strings as `List Nat`,
JavaScript strings as Lean `String`, and the mutable `#period` field by explicit
state passing: `totp` returns the updated instance together with the code.
JavaScript integer arithmetic on the values reached by these functions is exact
(all intermediates stay far below 2^53), so `Nat`/`Int` model it faithfully;
32-bit wrap-around inside the hash primitives is written with explicit `% 2^32`.
-/

namespace OTPSpec

/-! ### Generic byte and word helpers -/

/-- Truncate to a 32-bit word, modelling 32-bit modular arithmetic inside the
hash primitives. -/
def w32 (x : Nat) : Nat := x % 4294967296

/-- Truncate to a 64-bit word (for SHA-512). -/
def w64 (x : Nat) : Nat := x % 18446744073709551616

/-- Rotate a 32-bit word left by `n` (for `0 < n < 32`). -/
def rotl32 (n x : Nat) : Nat := w32 ((x <<< n) ||| (x >>> (32 - n)))

/-- Rotate a 32-bit word right by `n` (for `0 < n < 32`). -/
def rotr32 (n x : Nat) : Nat := w32 ((x >>> n) ||| (x <<< (32 - n)))

/-- Rotate a 64-bit word right by `n` (for `0 < n < 64`). -/
def rotr64 (n x : Nat) : Nat := w64 ((x >>> n) ||| (x <<< (64 - n)))

/-- Big-endian bytes of `n`, exactly `k` bytes (most significant first). -/
def natToBytesBE : Nat → Nat → List Nat
  | 0, _ => []
  | k + 1, n => natToBytesBE k (n / 256) ++ [n % 256]

/-- Group a byte list into big-endian 32-bit words (whole groups of four). -/
def bytesToWords32 : List Nat → List Nat
  | a :: b :: c :: d :: rest =>
      (a * 16777216 + b * 65536 + c * 256 + d) :: bytesToWords32 rest
  | _ => []

/-- Group a byte list into big-endian 64-bit words (whole groups of eight). -/
def bytesToWords64 : List Nat → List Nat
  | a :: b :: c :: d :: e :: f :: g :: h :: rest =>
      (((((((a * 256 + b) * 256 + c) * 256 + d) * 256 + e) * 256 + f) * 256 + g) * 256 + h)
        :: bytesToWords64 rest
  | _ => []

/-- Big-endian byte expansion of one 32-bit word. -/
def word32ToBytes (w : Nat) : List Nat :=
  [(w >>> 24) &&& 255, (w >>> 16) &&& 255, (w >>> 8) &&& 255, w &&& 255]

/-- Big-endian byte expansion of one 64-bit word. -/
def word64ToBytes (w : Nat) : List Nat :=
  [(w >>> 56) &&& 255, (w >>> 48) &&& 255, (w >>> 40) &&& 255, (w >>> 32) &&& 255,
   (w >>> 24) &&& 255, (w >>> 16) &&& 255, (w >>> 8) &&& 255, w &&& 255]

/-- Concatenate the big-endian bytes of a list of 32-bit words. -/
def words32ToBytes (ws : List Nat) : List Nat :=
  ws.foldr (fun w acc => word32ToBytes w ++ acc) []

/-- Concatenate the big-endian bytes of a list of 64-bit words. -/
def words64ToBytes (ws : List Nat) : List Nat :=
  ws.foldr (fun w acc => word64ToBytes w ++ acc) []

/-! ### SHA-1

Modelled from the spec: the keyed-hash primitive (spec §6) is external to the
repository (`crypto-js`); `sha1` is the standard FIPS 180-4 SHA-1 function on
byte lists, which is what `CryptoJS.HmacSHA1` wraps. -/

/-- SHA-1 round function `f_t`. -/
def sha1F (t b c d : Nat) : Nat :=
  if t < 20 then (b &&& c) ||| ((b ^^^ 4294967295) &&& d)
  else if t < 40 then b ^^^ c ^^^ d
  else if t < 60 then (b &&& c) ||| (b &&& d) ||| (c &&& d)
  else b ^^^ c ^^^ d

/-- SHA-1 round constant `K_t`. -/
def sha1K (t : Nat) : Nat :=
  if t < 20 then 0x5A827999
  else if t < 40 then 0x6ED9EBA1
  else if t < 60 then 0x8F1BBCDC
  else 0xCA62C1D6

/-- Message-schedule extension: the accumulator is the schedule so far in
reverse (most recent word first); each step prepends
`rotl1 (w[i-3] xor w[i-8] xor w[i-14] xor w[i-16])`. -/
def sha1Extend : Nat → List Nat → List Nat
  | 0, acc => acc
  | n + 1, acc =>
      sha1Extend n
        (rotl32 1 ((acc.getD 2 0) ^^^ (acc.getD 7 0) ^^^ (acc.getD 13 0) ^^^ (acc.getD 15 0))
          :: acc)

/-- One SHA-1 round on the state `(a, b, c, d, e)`. -/
def sha1Round (st : Nat × Nat × Nat × Nat × Nat) (tw : Nat × Nat) : Nat × Nat × Nat × Nat × Nat :=
  match st, tw with
  | (a, b, c, d, e), (t, w) =>
      (w32 (rotl32 5 a + sha1F t b c d + e + sha1K t + w), a, rotl32 30 b, c, d)

/-- Compress one 64-byte block into the running hash (five 32-bit words). -/
def sha1Compress (h : List Nat) (block : List Nat) : List Nat :=
  let sched := (sha1Extend 64 (bytesToWords32 block).reverse).reverse
  let a0 := h.getD 0 0
  let b0 := h.getD 1 0
  let c0 := h.getD 2 0
  let d0 := h.getD 3 0
  let e0 := h.getD 4 0
  match sched.enum.foldl sha1Round (a0, b0, c0, d0, e0) with
  | (a, b, c, d, e) => [w32 (a0 + a), w32 (b0 + b), w32 (c0 + c), w32 (d0 + d), w32 (e0 + e)]

/-- Merkle–Damgård padding: append `0x80`, zeros, and the 8-byte big-endian
bit length, to a multiple of 64 bytes. -/
def sha1Pad (msg : List Nat) : List Nat :=
  msg ++ 0x80 :: List.replicate ((64 - (msg.length + 9) % 64) % 64) 0
      ++ natToBytesBE 8 (8 * msg.length)

/-- Fold the compression function over `n` consecutive 64-byte blocks. -/
def sha1Blocks : Nat → List Nat → List Nat → List Nat
  | 0, h, _ => h
  | n + 1, h, bytes => sha1Blocks n (sha1Compress h (bytes.take 64)) (bytes.drop 64)

/-- SHA-1 of a byte list (20-byte digest). -/
def sha1 (msg : List Nat) : List Nat :=
  let padded := sha1Pad msg
  words32ToBytes
    (sha1Blocks (padded.length / 64)
      [0x67452301, 0xEFCDAB89, 0x98BADCFE, 0x10325476, 0xC3D2E1F0] padded)

/-! ### SHA-256

Modelled from the spec: external keyed-hash primitive (spec §6), standard
FIPS 180-4 SHA-256 on byte lists (wrapped by `CryptoJS.HmacSHA256`). -/

/-- SHA-256 round constants. -/
def sha256K : List Nat :=
  [1116352408, 1899447441, 3049323471, 3921009573, 961987163, 1508970993,
   2453635748, 2870763221, 3624381080, 310598401, 607225278, 1426881987,
   1925078388, 2162078206, 2614888103, 3248222580, 3835390401, 4022224774,
   264347078, 604807628, 770255983, 1249150122, 1555081692, 1996064986,
   2554220882, 2821834349, 2952996808, 3210313671, 3336571891, 3584528711,
   113926993, 338241895, 666307205, 773529912, 1294757372, 1396182291,
   1695183700, 1986661051, 2177026350, 2456956037, 2730485921, 2820302411,
   3259730800, 3345764771, 3516065817, 3600352804, 4094571909, 275423344,
   430227734, 506948616, 659060556, 883997877, 958139571, 1322822218,
   1537002063, 1747873779, 1955562222, 2024104815, 2227730452, 2361852424,
   2428436474, 2756734187, 3204031479, 3329325298]

/-- Schedule extension step for SHA-256 (accumulator reversed, newest first):
`w[i] = w[i-16] + s0(w[i-15]) + w[i-7] + s1(w[i-2])`. -/
def sha256Extend : Nat → List Nat → List Nat
  | 0, acc => acc
  | n + 1, acc =>
      let s0 := rotr32 7 (acc.getD 14 0) ^^^ rotr32 18 (acc.getD 14 0) ^^^ ((acc.getD 14 0) >>> 3)
      let s1 := rotr32 17 (acc.getD 1 0) ^^^ rotr32 19 (acc.getD 1 0) ^^^ ((acc.getD 1 0) >>> 10)
      sha256Extend n (w32 ((acc.getD 15 0) + s0 + (acc.getD 6 0) + s1) :: acc)

/-- One SHA-256 round on the eight-word state; `kw` is `K_t + W_t`. -/
def sha256Round (st : List Nat) (kw : Nat) : List Nat :=
  let a := st.getD 0 0
  let b := st.getD 1 0
  let c := st.getD 2 0
  let d := st.getD 3 0
  let e := st.getD 4 0
  let f := st.getD 5 0
  let g := st.getD 6 0
  let h := st.getD 7 0
  let bigS1 := rotr32 6 e ^^^ rotr32 11 e ^^^ rotr32 25 e
  let ch := (e &&& f) ^^^ ((e ^^^ 4294967295) &&& g)
  let temp1 := w32 (h + bigS1 + ch + kw)
  let bigS0 := rotr32 2 a ^^^ rotr32 13 a ^^^ rotr32 22 a
  let maj := (a &&& b) ^^^ (a &&& c) ^^^ (b &&& c)
  let temp2 := w32 (bigS0 + maj)
  [w32 (temp1 + temp2), a, b, c, w32 (d + temp1), e, f, g]

/-- Compress one 64-byte block into the running SHA-256 hash. -/
def sha256Compress (h : List Nat) (block : List Nat) : List Nat :=
  let sched := (sha256Extend 48 (bytesToWords32 block).reverse).reverse
  let fin := (sched.zip sha256K).foldl (fun st p => sha256Round st (p.1 + p.2)) h
  (h.zip fin).map (fun p => w32 (p.1 + p.2))

/-- Fold over 64-byte blocks for SHA-256. -/
def sha256Blocks : Nat → List Nat → List Nat → List Nat
  | 0, h, _ => h
  | n + 1, h, bytes => sha256Blocks n (sha256Compress h (bytes.take 64)) (bytes.drop 64)

/-- SHA-256 of a byte list (32-byte digest; same padding rule as SHA-1). -/
def sha256 (msg : List Nat) : List Nat :=
  let padded := sha1Pad msg
  words32ToBytes
    (sha256Blocks (padded.length / 64)
      [1779033703, 3144134277, 1013904242, 2773480762, 1359893119, 2600822924,
       528734635, 1541459225] padded)

/-! ### SHA-512

Modelled from the spec: external keyed-hash primitive (spec §6), standard
FIPS 180-4 SHA-512 on byte lists (wrapped by `CryptoJS.HmacSHA512`). -/

/-- SHA-512 round constants. -/
def sha512K : List Nat :=
  [4794697086780616226, 8158064640168781261, 13096744586834688815, 16840607885511220156,
   4131703408338449720, 6480981068601479193, 10538285296894168987, 12329834152419229976,
   15566598209576043074, 1334009975649890238, 2608012711638119052, 6128411473006802146,
   8268148722764581231, 9286055187155687089, 11230858885718282805, 13951009754708518548,
   16472876342353939154, 17275323862435702243, 1135362057144423861, 2597628984639134821,
   3308224258029322869, 5365058923640841347, 6679025012923562964, 8573033837759648693,
   10970295158949994411, 12119686244451234320, 12683024718118986047, 13788192230050041572,
   14330467153632333762, 15395433587784984357, 489312712824947311, 1452737877330783856,
   2861767655752347644, 3322285676063803686, 5560940570517711597, 5996557281743188959,
   7280758554555802590, 8532644243296465576, 9350256976987008742, 10552545826968843579,
   11727347734174303076, 12113106623233404929, 14000437183269869457, 14369950271660146224,
   15101387698204529176, 15463397548674623760, 17586052441742319658, 1182934255886127544,
   1847814050463011016, 2177327727835720531, 2830643537854262169, 3796741975233480872,
   4115178125766777443, 5681478168544905931, 6601373596472566643, 7507060721942968483,
   8399075790359081724, 8693463985226723168, 9568029438360202098, 10144078919501101548,
   10430055236837252648, 11840083180663258601, 13761210420658862357, 14299343276471374635,
   14566680578165727644, 15097957966210449927, 16922976911328602910, 17689382322260857208,
   500013540394364858, 748580250866718886, 1242879168328830382, 1977374033974150939,
   2944078676154940804, 3659926193048069267, 4368137639120453308, 4836135668995329356,
   5532061633213252278, 6448918945643986474, 6902733635092675308, 7801388544844847127]

/-- Schedule extension step for SHA-512 (accumulator reversed, newest first). -/
def sha512Extend : Nat → List Nat → List Nat
  | 0, acc => acc
  | n + 1, acc =>
      let s0 := rotr64 1 (acc.getD 14 0) ^^^ rotr64 8 (acc.getD 14 0) ^^^ ((acc.getD 14 0) >>> 7)
      let s1 := rotr64 19 (acc.getD 1 0) ^^^ rotr64 61 (acc.getD 1 0) ^^^ ((acc.getD 1 0) >>> 6)
      sha512Extend n (w64 ((acc.getD 15 0) + s0 + (acc.getD 6 0) + s1) :: acc)

/-- One SHA-512 round on the eight-word state; `kw` is `K_t + W_t`. -/
def sha512Round (st : List Nat) (kw : Nat) : List Nat :=
  let a := st.getD 0 0
  let b := st.getD 1 0
  let c := st.getD 2 0
  let d := st.getD 3 0
  let e := st.getD 4 0
  let f := st.getD 5 0
  let g := st.getD 6 0
  let h := st.getD 7 0
  let bigS1 := rotr64 14 e ^^^ rotr64 18 e ^^^ rotr64 41 e
  let ch := (e &&& f) ^^^ ((e ^^^ 18446744073709551615) &&& g)
  let temp1 := w64 (h + bigS1 + ch + kw)
  let bigS0 := rotr64 28 a ^^^ rotr64 34 a ^^^ rotr64 39 a
  let maj := (a &&& b) ^^^ (a &&& c) ^^^ (b &&& c)
  let temp2 := w64 (bigS0 + maj)
  [w64 (temp1 + temp2), a, b, c, w64 (d + temp1), e, f, g]

/-- Compress one 128-byte block into the running SHA-512 hash. -/
def sha512Compress (h : List Nat) (block : List Nat) : List Nat :=
  let sched := (sha512Extend 64 (bytesToWords64 block).reverse).reverse
  let fin := (sched.zip sha512K).foldl (fun st p => sha512Round st (p.1 + p.2)) h
  (h.zip fin).map (fun p => w64 (p.1 + p.2))

/-- Padding for SHA-512: append `0x80`, zeros, and the 16-byte big-endian bit
length, to a multiple of 128 bytes. -/
def sha512Pad (msg : List Nat) : List Nat :=
  msg ++ 0x80 :: List.replicate ((128 - (msg.length + 17) % 128) % 128) 0
      ++ natToBytesBE 16 (8 * msg.length)

/-- Fold over 128-byte blocks for SHA-512. -/
def sha512Blocks : Nat → List Nat → List Nat → List Nat
  | 0, h, _ => h
  | n + 1, h, bytes => sha512Blocks n (sha512Compress h (bytes.take 128)) (bytes.drop 128)

/-- SHA-512 of a byte list (64-byte digest). -/
def sha512 (msg : List Nat) : List Nat :=
  let padded := sha512Pad msg
  words64ToBytes
    (sha512Blocks (padded.length / 128)
      [7640891576956012808, 13503953896175478587, 4354685564936845355, 11912009170470909681,
       5840696475078001361, 11170449401992604703, 2270897969802886507, 6620516959819538809] padded)

/-! ### HMAC

Modelled from the spec: standard HMAC semantics (spec §6) over a hash with the
given block size, as implemented by the external `crypto-js` primitives. -/

/-- HMAC over a hash function with the given block size: a key longer than a
block is hashed, the key is zero-padded to the block size, and the digest is
`hash(opadKey ++ hash(ipadKey ++ msg))`. -/
def hmac (blockSize : Nat) (hashFn : List Nat → List Nat) (key msg : List Nat) : List Nat :=
  let k0 := if blockSize < key.length then hashFn key else key
  let k := k0 ++ List.replicate (blockSize - k0.length) 0
  hashFn ((k.map (· ^^^ 0x5c)) ++ hashFn ((k.map (· ^^^ 0x36)) ++ msg))

/-- Hash-function type of the `#hash` field: `crypto-js` HMAC functions take
the message first and the key second. -/
def Hash := List Nat → List Nat → List Nat

/-- Model of `CryptoJS.HmacSHA1(message, key)`. -/
def hmacSHA1 : Hash := fun message key => hmac 64 sha1 key message

/-- Model of `CryptoJS.HmacSHA256(message, key)`. -/
def hmacSHA256 : Hash := fun message key => hmac 64 sha256 key message

/-- Model of `CryptoJS.HmacSHA512(message, key)` (SHA-512 block size is 128). -/
def hmacSHA512 : Hash := fun message key => hmac 128 sha512 key message

/-! ### Base32 secret codec

Modelled from the spec: the external secret codec `@se-oss/base32` (spec §6),
RFC 4648 base32. Only `decode` is needed by the claims. -/

/-- Value of one RFC 4648 base32 alphabet character (`A`..`Z`, `2`..`7`). -/
def base32CharVal (c : Char) : Nat :=
  if 'A' ≤ c ∧ c ≤ 'Z' then c.toNat - 65
  else if 'a' ≤ c ∧ c ≤ 'z' then c.toNat - 97
  else if '2' ≤ c ∧ c ≤ '7' then c.toNat - 50 + 26
  else 0

/-- Accumulate 5-bit groups into bytes; `acc`/`bits` hold pending bits, output
is collected in reverse. -/
def base32DecodeAux : List Char → Nat → Nat → List Nat → List Nat
  | [], _, _, out => out.reverse
  | c :: rest, acc, bits, out =>
      if c = '=' then base32DecodeAux rest acc bits out
      else
        let acc := acc * 32 + base32CharVal c
        let bits := bits + 5
        if 8 ≤ bits then
          base32DecodeAux rest (acc % 2 ^ (bits - 8)) (bits - 8) ((acc >>> (bits - 8)) :: out)
        else base32DecodeAux rest acc bits out

/-- Model of `base32.decode`: text secret to raw key bytes. -/
def base32Decode (s : String) : List Nat := base32DecodeAux s.data 0 0 []

/-! ### src/utils.ts — `numberToWordArray`

The source builds `counter.toString(16).padStart(16, '0')` and parses it with
`CryptoJS.enc.Hex.parse`, which walks the string two characters at a time,
ORs `parseInt(chunk, 16) << (24 - (i % 8) * 4)` into 32-bit words, and records
`hexStrLength / 2` significant bytes. The model mirrors this at the level of
hex symbols so that it is total on `Int` (JavaScript `number` counters),
including the out-of-domain negative counters reachable through
`totpVerify`'s window. -/

/-- One character of a JavaScript hex string: a hex digit or the minus sign. -/
inductive HexSym where
  | digit (d : Nat)
  | minus
deriving DecidableEq

/-- Little-endian hex digits of `n` (empty for 0), with explicit fuel; called
with `fuel = n`, which always suffices. -/
def toHexRevF : Nat → Nat → List Nat
  | 0, _ => []
  | f + 1, n => if n = 0 then [] else n % 16 :: toHexRevF f (n / 16)

/-- Model of `n.toString(16)` for a non-negative integer: most significant
digit first, and `"0"` for zero. -/
def toStringHex (n : Nat) : List HexSym :=
  if n = 0 then [HexSym.digit 0] else ((toHexRevF n n).reverse).map HexSym.digit

/-- Model of `counter.toString(16)`: a leading minus sign for negatives. -/
def intToHexSyms : Int → List HexSym
  | Int.ofNat n => toStringHex n
  | Int.negSucc n => HexSym.minus :: toStringHex (n + 1)

/-- Model of `.padStart(16, '0')`. -/
def padStart16 (l : List HexSym) : List HexSym :=
  List.replicate (16 - l.length) (HexSym.digit 0) ++ l

/-- Split the hex string into the two-character chunks walked by `Hex.parse`
(the last chunk has one character when the length is odd). -/
def chunkPairs : List HexSym → List (List HexSym)
  | a :: b :: rest => [a, b] :: chunkPairs rest
  | [a] => [[a]]
  | [] => []

/-- JavaScript `parseInt(chunk, 16)` on a one- or two-character chunk: longest
numeric prefix, `none` for NaN. -/
def parseIntChunk : List HexSym → Option Int
  | [HexSym.digit a, HexSym.digit b] => some (16 * a + b)
  | [HexSym.digit a, HexSym.minus] => some (a : Int)
  | [HexSym.minus, HexSym.digit b] => some (-(b : Int))
  | [HexSym.digit a] => some (a : Int)
  | _ => none

/-- `ToInt32` of the parsed value as used by `|=` and `<<` (NaN becomes 0),
represented as a natural number below `2^32`. -/
def int32OfChunk : Option Int → Nat
  | none => 0
  | some v => (v % (4294967296 : Int)).toNat

/-- Accumulate four chunk values per 32-bit word:
`word |= v << (24 - (chunkIndex % 4) * 8)` with 32-bit wrap-around. -/
def wordsFromChunkVals : List Nat → List Nat
  | a :: b :: c :: d :: rest =>
      (((((a <<< 24) % 4294967296) ||| ((b <<< 16) % 4294967296)) |||
        ((c <<< 8) % 4294967296)) ||| d) :: wordsFromChunkVals rest
  | [a, b, c] => [(((a <<< 24) % 4294967296) ||| ((b <<< 16) % 4294967296)) ||| ((c <<< 8) % 4294967296)]
  | [a, b] => [((a <<< 24) % 4294967296) ||| ((b <<< 16) % 4294967296)]
  | [a] => [(a <<< 24) % 4294967296]
  | [] => []

/-- Model of `wordArrayToBytes` (src/utils.ts): extract `sigBytes` big-endian
bytes from the word list. -/
def wordArrayToBytes (words : List Nat) (sigBytes : Nat) : List Nat :=
  (List.range sigBytes).map (fun i => (words.getD (i / 4) 0 >>> (24 - (i % 4) * 8)) &&& 255)

/-- Model of `numberToWordArray` (src/utils.ts), as the byte sequence the
returned `WordArray` represents. -/
def numberToWordArray (counter : Int) : List Nat :=
  let syms := padStart16 (intToHexSyms counter)
  wordArrayToBytes
    (wordsFromChunkVals ((chunkPairs syms).map (fun ch => int32OfChunk (parseIntChunk ch))))
    ((syms.length + 1) / 2)

/-! ### src/typings.ts — option records -/

/-- The `Algorithm` union type. -/
inductive Algorithm where
  | SHA1
  | SHA256
  | SHA512
deriving DecidableEq

/-- `HOTPOptions`: the counter value (a JavaScript number, modelled as `Int`). -/
structure HOTPOptions where
  counter : Int
deriving DecidableEq

/-- `TOTPOptions`: optional period override and optional timestamp in
milliseconds. -/
structure TOTPOptions where
  period : Option Nat := none
  timestamp : Option Nat := none
deriving DecidableEq

/-- `OTPGeneratorOptions`: constructor options. -/
structure OTPGeneratorOptions where
  algorithm : Option Algorithm := none
  digits : Option Nat := none
  period : Option Nat := none
  secret : Option String := none

/-- `HOTPVerify`: counter plus candidate code. -/
structure HOTPVerify extends HOTPOptions where
  code : String
deriving DecidableEq

/-- `TOTPVerifyOptions extends TOTPOptions`: candidate code and optional
window (a JavaScript number, modelled as `Int` so that negative windows are
representable). The inherited `period` field is present but never read by
`totpVerify`. -/
structure TOTPVerifyOptions extends TOTPOptions where
  code : String
  window : Option Int := none
deriving DecidableEq

/-! ### src/index.ts — the `OTP` class

The instance state is the four fields; the `#hash` field is set once by the
constructor from the immutable `#algorithm` (`setHash`) and never reassigned,
so reading it is modelled by recomputing `setHash algorithm`. The only mutable
field is `#period`; `totp`, the sole mutator, returns the updated instance. -/

/-- The `OTP` engine instance. -/
structure OTP where
  algorithm : Algorithm
  digits : Nat
  secret : String
  period : Nat
deriving DecidableEq

/-- Model of `setHash`: dispatch the HMAC primitive on the algorithm. The
TypeScript `default: throw InvalidAlgorithmError` branch is unreachable, since
`Algorithm` has exactly these three values. -/
def setHash : Algorithm → Hash
  | Algorithm.SHA1 => hmacSHA1
  | Algorithm.SHA256 => hmacSHA256
  | Algorithm.SHA512 => hmacSHA512

/-- The `#hash` field of an instance. -/
def OTP.hash (o : OTP) : Hash := setHash o.algorithm

/-- Model of the constructor `new OTP(options)`: `??`-defaults for the fields.
A missing secret falls back to `generateSecret()`, an external random draw
modelled by the extra argument. -/
def OTP.construct (options : OTPGeneratorOptions) (generatedSecret : String) : OTP :=
  { algorithm := options.algorithm.getD Algorithm.SHA1
    digits := options.digits.getD 6
    period := options.period.getD 30
    secret := options.secret.getD generatedSecret }

/-- Decimal digits of `n`, little-endian, with fuel (empty for 0). -/
def toDecRevF : Nat → Nat → List Nat
  | 0, _ => []
  | f + 1, n => if n = 0 then [] else n % 10 :: toDecRevF f (n / 10)

/-- Model of `code.toString()` for a non-negative integer: decimal digit
characters, most significant first. -/
def natToString (n : Nat) : List Char :=
  if n = 0 then ['0']
  else ((toDecRevF n n).reverse).map (fun d => Char.ofNat (48 + d))

/-- Model of `.padStart(digits, '0')` on a character list. -/
def padStartList (n : Nat) (c : Char) (l : List Char) : List Char :=
  List.replicate (n - l.length) c ++ l

/-- Model of `OTP.hotp`: HMAC the counter word array with the decoded secret,
dynamically truncate, reduce mod `10 ** digits`, format zero-padded. -/
def OTP.hotp (o : OTP) (options : HOTPOptions) : String :=
  let key := base32Decode o.secret
  let counterWordArray := numberToWordArray options.counter
  let hmacBytes := o.hash counterWordArray key
  let offset := (hmacBytes.getD (hmacBytes.length - 1) 0) &&& 0x0f
  let code :=
    ((((((hmacBytes.getD offset 0) &&& 0x7f) <<< 24) |||
       (((hmacBytes.getD (offset + 1) 0) &&& 0xff) <<< 16)) |||
      (((hmacBytes.getD (offset + 2) 0) &&& 0xff) <<< 8)) |||
     ((hmacBytes.getD (offset + 3) 0) &&& 0xff)) % 10 ^ o.digits
  String.mk (padStartList o.digits '0' (natToString code))

/-- Model of `OTP.totp`: default the timestamp to `Date.now()` (the `now`
argument), persist a truthy period override into the instance, and delegate to
`hotp` at `Math.floor(timestamp / 1000 / period)`. Returns the code together
with the updated instance. -/
def OTP.totp (o : OTP) (options : TOTPOptions) (now : Nat) : String × OTP :=
  let timestamp := options.timestamp.getD now
  let o' := match options.period with
    | some p => if p = 0 then o else { o with period := p }
    | none => o
  let counter : Int := (timestamp / 1000 / o'.period : Nat)
  (o'.hotp { counter := counter }, o')

/-- Model of `OTP.hotpVerify`: recompute and compare for string equality. -/
def OTP.hotpVerify (o : OTP) (options : HOTPVerify) : Bool :=
  let otp := o.hotp { counter := options.counter }
  decide (otp = options.code)

/-- Model of `OTP.totpVerify`: window defaults to 1; try every counter
`floor(timestamp / 1000 / period) + i` for `i` from `-window` to `window`,
and accept on the first string match. -/
def OTP.totpVerify (o : OTP) (options : TOTPVerifyOptions) (now : Nat) : Bool :=
  let timestamp := options.timestamp.getD now
  let window := options.window.getD 1
  (List.range (2 * window + 1).toNat).any fun k =>
    let i : Int := -window + k
    let counter : Int := (timestamp / 1000 / o.period : Nat) + i
    decide (o.hotp { counter := counter } = options.code)

/-! ### Spec-side definitions

These follow the wording of the spec (§4.2) rather than the source; the
refinement theorems compare them with the source-side `OTP.hotp`. -/

/-- Spec-side §4.2 step 2: the counter as an 8-byte big-endian integer. -/
def counterBytesBE (c : Int) : List Nat := natToBytesBE 8 c.toNat

/-- Spec-side §4.2 step 4, following the claim wording: `offset` is the low
nibble of the last digest byte; the four bytes `digest[offset..offset+3]` are
combined big-endian, the most significant bit of the first masked by `0x7F`,
yielding the 31-bit `binCode`. -/
def dynamicTruncate (digest : List Nat) : Nat :=
  let offset := (digest.getD (digest.length - 1) 0) &&& 0x0f
  ((digest.getD offset 0) &&& 0x7f) * 16777216 + (digest.getD (offset + 1) 0) * 65536 +
    (digest.getD (offset + 2) 0) * 256 + digest.getD (offset + 3) 0

/-- Fully padded little-endian base-16 digit expansion (proof helper). -/
def leDigits16 : Nat → Nat → List Nat
  | 0, _ => []
  | k + 1, n => n % 16 :: leDigits16 k (n / 16)

/-! ### Concrete test data

The RFC 4226 / RFC 6238 secret: base32 of the ASCII bytes
`"12345678901234567890"`. -/

/-- The shared RFC test secret. -/
def rfcSecret : String := "GEZDGNBVGY3TQOJQGEZDGNBVGY3TQOJQ"

/-- The RFC 4226 instance: SHA1, 6 digits, period 30. -/
def rfcOTP6 : OTP := OTP.construct { secret := some rfcSecret } "unused"

/-- The RFC 6238 instance: SHA1, 8 digits, period 30. -/
def rfcOTP8 : OTP := OTP.construct { secret := some rfcSecret, digits := some 8 } "unused"

/-! ### Arithmetic and bit-level lemmas -/

theorem and255_eq_mod (x : Nat) : x &&& 255 = x % 256 := by
  have h := Nat.and_pow_two_sub_one_eq_mod x 8
  norm_num at h
  exact h

theorem and255_of_lt {x : Nat} (h : x < 256) : x &&& 255 = x := by
  rw [and255_eq_mod]
  exact Nat.mod_eq_of_lt h

/-- The dynamic-truncation OR of four shifted bytes is their big-endian sum. -/
theorem four_bytes_lor (a b c d : Nat) (hb : b < 256) (hc : c < 256)
    (hd : d < 256) :
    (((a <<< 24) ||| (b <<< 16)) ||| (c <<< 8)) ||| d
      = a * 16777216 + b * 65536 + c * 256 + d := by
  have p24 : (2 : Nat) ^ 24 = 16777216 := by norm_num
  have p16 : (2 : Nat) ^ 16 = 65536 := by norm_num
  have p8 : (2 : Nat) ^ 8 = 256 := by norm_num
  have sa : a <<< 24 = a * 16777216 := by rw [Nat.shiftLeft_eq, p24]
  have sb : b <<< 16 = b * 65536 := by rw [Nat.shiftLeft_eq, p16]
  have sc : c <<< 8 = c * 256 := by rw [Nat.shiftLeft_eq, p8]
  rw [sa, sb, sc]
  have h1 : a * 16777216 ||| b * 65536 = a * 16777216 + b * 65536 := by
    have h := Nat.mul_add_lt_is_or (show b * 65536 < 2 ^ 24 by rw [p24]; omega) a
    rw [p24, Nat.mul_comm 16777216 a] at h
    exact h.symm
  have h2 : a * 16777216 + b * 65536 ||| c * 256 = a * 16777216 + b * 65536 + c * 256 := by
    have h := Nat.mul_add_lt_is_or (show c * 256 < 2 ^ 16 by rw [p16]; omega) (a * 256 + b)
    rw [p16, show 65536 * (a * 256 + b) = a * 16777216 + b * 65536 from by ring] at h
    exact h.symm
  have h3 : a * 16777216 + b * 65536 + c * 256 ||| d
      = a * 16777216 + b * 65536 + c * 256 + d := by
    have h := Nat.mul_add_lt_is_or (show d < 2 ^ 8 by rw [p8]; omega)
      (a * 65536 + b * 256 + c)
    rw [p8, show 256 * (a * 65536 + b * 256 + c) = a * 16777216 + b * 65536 + c * 256
        from by ring] at h
    exact h.symm
  rw [h1, h2, h3]

/-- Values below 256 shifted into a byte slot of a word stay below `2^32`, so
the crypto-js 32-bit wrap-around is the identity there. -/
theorem shift_mod32_eq {v : Nat} (s : Nat) (hv : v < 256) (hs : s ≤ 24) :
    (v <<< s) % 4294967296 = v <<< s := by
  apply Nat.mod_eq_of_lt
  rw [Nat.shiftLeft_eq]
  calc v * 2 ^ s ≤ v * 2 ^ 24 :=
        Nat.mul_le_mul_left v (Nat.pow_le_pow_right (by norm_num) hs)
    _ ≤ 255 * 2 ^ 24 := Nat.mul_le_mul_right _ (by omega)
    _ < 4294967296 := by norm_num

/-- Crypto-js word assembly and byte extraction compose to the big-endian sum
for byte-sized chunk values. -/
theorem word_of_pairs (a b c d : Nat) (ha : a < 256) (hb : b < 256) (hc : c < 256)
    (hd : d < 256) :
    ((((a <<< 24) % 4294967296) ||| ((b <<< 16) % 4294967296)) |||
        ((c <<< 8) % 4294967296)) ||| d
      = a * 16777216 + b * 65536 + c * 256 + d := by
  rw [shift_mod32_eq 24 ha (by norm_num), shift_mod32_eq 16 hb (by norm_num),
    shift_mod32_eq 8 hc (by norm_num)]
  exact four_bytes_lor a b c d hb hc hd

/-! ### Hex-string pipeline lemmas for `numberToWordArray` -/

theorem toHexRevF_zero (fuel : Nat) : toHexRevF fuel 0 = [] := by
  cases fuel <;> simp [toHexRevF]

theorem leDigits16_zero : ∀ k, leDigits16 k 0 = List.replicate k 0
  | 0 => rfl
  | k + 1 => by simp [leDigits16, leDigits16_zero k, List.replicate_succ]

/-- With enough fuel, the little-endian hex digits padded with zeros on the
high side are exactly the fully padded digit expansion. -/
theorem hexF_pad : ∀ (k fuel n : Nat), n ≤ fuel → n < 16 ^ k →
    toHexRevF fuel n ++ List.replicate (k - (toHexRevF fuel n).length) 0 = leDigits16 k n := by
  intro k
  induction k with
  | zero =>
    intro fuel n _ hk
    have hn : n = 0 := by omega
    subst hn
    simp [toHexRevF_zero, leDigits16]
  | succ k ih =>
    intro fuel n hf hk
    by_cases hn : n = 0
    · subst hn
      simp [toHexRevF_zero, leDigits16_zero]
    · match fuel with
      | 0 => omega
      | f + 1 =>
        have hdiv : n / 16 < n := Nat.div_lt_self (by omega) (by norm_num)
        have h1 : n / 16 ≤ f := by omega
        have h2 : n / 16 < 16 ^ k := by
          rw [Nat.div_lt_iff_lt_mul (by norm_num)]
          rw [pow_succ] at hk
          exact hk
        simp only [toHexRevF, if_neg hn, List.cons_append, List.length_cons, leDigits16]
        rw [show k + 1 - ((toHexRevF f (n / 16)).length + 1) = k - (toHexRevF f (n / 16)).length
          from by omega]
        rw [ih f (n / 16) h1 h2]

/-- The padded 16-character hex string of `n < 16^16` is the fully padded
big-endian digit expansion. -/
theorem padStart16_hex (n : Nat) (h : n < 16 ^ 16) :
    padStart16 (toStringHex n) = ((leDigits16 16 n).reverse).map HexSym.digit := by
  by_cases hn : n = 0
  · subst hn
    simp [toStringHex, padStart16, leDigits16_zero, List.map_replicate]
  · have key := hexF_pad 16 n n (le_refl n) h
    have : (leDigits16 16 n).reverse
        = List.replicate (16 - (toHexRevF n n).length) 0 ++ (toHexRevF n n).reverse := by
      rw [← key, List.reverse_append, List.reverse_replicate]
    rw [this]
    simp [toStringHex, hn, padStart16, List.map_replicate]

theorem int32_pair (a b : Nat) (ha : a < 16) (hb : b < 16) :
    int32OfChunk (parseIntChunk [HexSym.digit a, HexSym.digit b]) = 16 * a + b := by
  simp only [parseIntChunk, int32OfChunk]
  omega

/-- For a 64-bit non-negative counter, the hex round trip of
`numberToWordArray` produces exactly the 8-byte big-endian encoding. -/
theorem numberToWordArray_eq_bytesBE (n : Nat) (h : n < 2 ^ 64) :
    numberToWordArray (Int.ofNat n) = natToBytesBE 8 n := by
  have h16 : n < 16 ^ 16 := by norm_num at h ⊢; exact h
  have m16 : ∀ x : Nat, x % 16 < 16 := fun x => Nat.mod_lt x (by norm_num)
  have expandR : (leDigits16 16 n).reverse =
      [n / 16 / 16 / 16 / 16 / 16 / 16 / 16 / 16 / 16 / 16 / 16 / 16 / 16 / 16 / 16 % 16,
       n / 16 / 16 / 16 / 16 / 16 / 16 / 16 / 16 / 16 / 16 / 16 / 16 / 16 / 16 % 16,
       n / 16 / 16 / 16 / 16 / 16 / 16 / 16 / 16 / 16 / 16 / 16 / 16 / 16 % 16,
       n / 16 / 16 / 16 / 16 / 16 / 16 / 16 / 16 / 16 / 16 / 16 / 16 % 16,
       n / 16 / 16 / 16 / 16 / 16 / 16 / 16 / 16 / 16 / 16 / 16 % 16,
       n / 16 / 16 / 16 / 16 / 16 / 16 / 16 / 16 / 16 / 16 % 16,
       n / 16 / 16 / 16 / 16 / 16 / 16 / 16 / 16 / 16 % 16,
       n / 16 / 16 / 16 / 16 / 16 / 16 / 16 / 16 % 16,
       n / 16 / 16 / 16 / 16 / 16 / 16 / 16 % 16,
       n / 16 / 16 / 16 / 16 / 16 / 16 % 16,
       n / 16 / 16 / 16 / 16 / 16 % 16,
       n / 16 / 16 / 16 / 16 % 16,
       n / 16 / 16 / 16 % 16,
       n / 16 / 16 % 16,
       n / 16 % 16,
       n % 16] := rfl
  have expandB : natToBytesBE 8 n =
      [n / 256 / 256 / 256 / 256 / 256 / 256 / 256 % 256,
       n / 256 / 256 / 256 / 256 / 256 / 256 % 256,
       n / 256 / 256 / 256 / 256 / 256 % 256,
       n / 256 / 256 / 256 / 256 % 256,
       n / 256 / 256 / 256 % 256,
       n / 256 / 256 % 256,
       n / 256 % 256,
       n % 256] := rfl
  simp only [numberToWordArray, intToHexSyms]
  rw [padStart16_hex n h16, expandR, expandB]
  simp only [List.map_cons, List.map_nil, chunkPairs, List.length_cons, List.length_nil]
  rw [int32_pair _ _ (m16 _) (m16 _), int32_pair _ _ (m16 _) (m16 _),
    int32_pair _ _ (m16 _) (m16 _), int32_pair _ _ (m16 _) (m16 _),
    int32_pair _ _ (m16 _) (m16 _), int32_pair _ _ (m16 _) (m16 _),
    int32_pair _ _ (m16 _) (m16 _), int32_pair _ _ (m16 _) (m16 _)]
  simp only [wordsFromChunkVals]
  rw [word_of_pairs _ _ _ _ (by omega) (by omega) (by omega) (by omega),
    word_of_pairs _ _ _ _ (by omega) (by omega) (by omega) (by omega)]
  simp only [wordArrayToBytes]
  rw [show List.range 8 = [0, 1, 2, 3, 4, 5, 6, 7] from rfl]
  simp only [List.map_cons, List.map_nil, List.getD, List.getElem?_cons_zero,
    List.getElem?_cons_succ, Option.getD_some]
  norm_num [Nat.shiftRight_eq_div_pow, and255_eq_mod]
  omega

/-! ### Digest byte bounds -/

theorem mem_words32ToBytes {ws : List Nat} {x : Nat} (hx : x ∈ words32ToBytes ws) :
    x < 256 := by
  induction ws with
  | nil => simp [words32ToBytes] at hx
  | cons w t ih =>
    have : words32ToBytes (w :: t) = word32ToBytes w ++ words32ToBytes t := rfl
    rw [this, List.mem_append] at hx
    rcases hx with hx | hx
    · simp only [word32ToBytes, List.mem_cons, List.not_mem_nil, or_false] at hx
      rcases hx with h | h | h | h <;> subst h <;>
        exact Nat.lt_of_le_of_lt Nat.and_le_right (by norm_num)
    · exact ih hx

theorem mem_words64ToBytes {ws : List Nat} {x : Nat} (hx : x ∈ words64ToBytes ws) :
    x < 256 := by
  induction ws with
  | nil => simp [words64ToBytes] at hx
  | cons w t ih =>
    have : words64ToBytes (w :: t) = word64ToBytes w ++ words64ToBytes t := rfl
    rw [this, List.mem_append] at hx
    rcases hx with hx | hx
    · simp only [word64ToBytes, List.mem_cons, List.not_mem_nil, or_false] at hx
      rcases hx with h | h | h | h | h | h | h | h <;> subst h <;>
        exact Nat.lt_of_le_of_lt Nat.and_le_right (by norm_num)
    · exact ih hx

theorem getD_lt_of_all {l : List Nat} {d : Nat} (hl : ∀ x ∈ l, x < 256) (hd : d < 256) :
    ∀ i, l.getD i d < 256 := by
  induction l with
  | nil => intro i; simpa [List.getD] using hd
  | cons a t ih =>
    intro i
    cases i with
    | zero => exact hl a (by simp)
    | succ j => exact ih (fun x hx => hl x (by simp [hx])) j

/-- Every byte the modelled HMAC primitives produce is below 256. -/
theorem digest_getD_lt (a : Algorithm) (m k : List Nat) (i : Nat) :
    (setHash a m k).getD i 0 < 256 := by
  have hall : ∀ x ∈ setHash a m k, x < 256 := by
    cases a <;> intro x hx
    · exact mem_words32ToBytes hx
    · exact mem_words32ToBytes hx
    · exact mem_words64ToBytes hx
  exact getD_lt_of_all hall (by norm_num) i

theorem hash_getD_lt (o : OTP) (m k : List Nat) (i : Nat) : (o.hash m k).getD i 0 < 256 :=
  digest_getD_lt o.algorithm m k i

theorem numberToWordArray_nonneg_eq (c : Int) (h0 : 0 ≤ c) (h : c < 2 ^ 64) :
    numberToWordArray c = natToBytesBE 8 c.toNat := by
  lift c to Nat using h0 with n
  have hn : n < 2 ^ 64 := by exact_mod_cast h
  have := numberToWordArray_eq_bytesBE n hn
  simpa using this

/-! ### Claim theorems -/

/-- Claim C1: with the RFC secret (base32 of ASCII "12345678901234567890") and
SHA1, `hotp` with 6 digits returns the RFC 4226 vector codes for counters 0..9,
and `totp` with 8 digits and default period 30 returns the RFC 6238 vector
codes for the six test timestamps passed as milliseconds. -/
theorem claim1_rfc_vectors :
    (List.range 10).map (fun i => rfcOTP6.hotp { counter := (i : Int) })
      = ["755224", "287082", "359152", "969429", "338314",
         "254676", "287922", "162583", "399871", "520489"] ∧
    [(59 : Nat), 1111111109, 1111111111, 1234567890, 2000000000, 20000000000].map
        (fun t => (rfcOTP8.totp { timestamp := some (t * 1000) } 0).1)
      = ["94287082", "07081804", "14050471", "89005924", "69279037", "65353130"] := by
  constructor
  · decide
  · decide

/-- Claim C2: for every instance and every 64-bit unsigned counter, `hotp`
computes its code by dynamic truncation of the HMAC digest of the 8-byte
big-endian counter, reduced mod `10 ^ digits` and formatted. -/
theorem claim2_hotp_dynamic_truncation (o : OTP) (c : Int) (h0 : 0 ≤ c) (h1 : c < 2 ^ 64) :
    o.hotp { counter := c } =
      String.mk (padStartList o.digits '0' (natToString
        (dynamicTruncate (o.hash (counterBytesBE c) (base32Decode o.secret))
          % 10 ^ o.digits))) := by
  have hc : numberToWordArray c = counterBytesBE c :=
    numberToWordArray_nonneg_eq c h0 h1
  simp only [OTP.hotp, hc]
  have b256 : ∀ x : Nat, x &&& 255 < 256 :=
    fun x => Nat.lt_of_le_of_lt Nat.and_le_right (by norm_num)
  rw [four_bytes_lor _ _ _ _ (b256 _) (b256 _) (b256 _)]
  rw [and255_of_lt (hash_getD_lt o _ _ _), and255_of_lt (hash_getD_lt o _ _ _),
    and255_of_lt (hash_getD_lt o _ _ _)]
  rfl

theorem claim2_witness :
    rfcOTP6.hotp { counter := 0 } =
      String.mk (padStartList rfcOTP6.digits '0' (natToString
        (dynamicTruncate (rfcOTP6.hash (counterBytesBE 0) (base32Decode rfcOTP6.secret))
          % 10 ^ rfcOTP6.digits))) :=
  claim2_hotp_dynamic_truncation rfcOTP6 0 (by norm_num) (by norm_num)

/-! ### Decimal formatting lemmas -/

theorem toDecRevF_zero (fuel : Nat) : toDecRevF fuel 0 = [] := by
  cases fuel <;> simp [toDecRevF]

theorem toDecRevF_length : ∀ (k fuel m : Nat), m ≤ fuel → m < 10 ^ k →
    (toDecRevF fuel m).length ≤ k := by
  intro k
  induction k with
  | zero =>
    intro fuel m hf hk
    have hm : m = 0 := by omega
    subst hm
    simp [toDecRevF_zero]
  | succ k ih =>
    intro fuel m hf hk
    by_cases hm : m = 0
    · subst hm
      simp [toDecRevF_zero]
    · match fuel with
      | 0 => omega
      | f + 1 =>
        simp only [toDecRevF, if_neg hm, List.length_cons]
        have hdiv : m / 10 < m := Nat.div_lt_self (by omega) (by norm_num)
        have h2 : m / 10 < 10 ^ k := by
          rw [Nat.div_lt_iff_lt_mul (by norm_num)]
          rw [pow_succ] at hk
          exact hk
        have := ih f (m / 10) (by omega) h2
        omega

theorem toDecRevF_mem : ∀ (fuel m x : Nat), x ∈ toDecRevF fuel m → x < 10 := by
  intro fuel
  induction fuel with
  | zero => intro m x hx; simp [toDecRevF] at hx
  | succ f ih =>
    intro m x hx
    by_cases hm : m = 0
    · subst hm; simp [toDecRevF] at hx
    · simp only [toDecRevF, if_neg hm, List.mem_cons] at hx
      rcases hx with h | h
      · subst h; exact Nat.mod_lt _ (by norm_num)
      · exact ih _ _ h

theorem digitChar_isDigit {d : Nat} (hd : d < 10) : (Char.ofNat (48 + d)).isDigit = true := by
  interval_cases d <;> decide

theorem natToString_length_le (m k : Nat) (hk : 1 ≤ k) (hm : m < 10 ^ k) :
    (natToString m).length ≤ k := by
  by_cases h : m = 0
  · subst h; simp [natToString]; omega
  · simp only [natToString, if_neg h, List.length_map, List.length_reverse]
    exact toDecRevF_length k m m (le_refl m) hm

theorem natToString_digits (m : Nat) : ∀ ch ∈ natToString m, ch.isDigit = true := by
  intro ch hch
  by_cases h : m = 0
  · subst h
    simp [natToString] at hch
    subst hch
    decide
  · simp only [natToString, if_neg h, List.mem_map, List.mem_reverse] at hch
    obtain ⟨d, hd, rfl⟩ := hch
    exact digitChar_isDigit (toDecRevF_mem m m d hd)

/-- A value below `10 ^ digits`, zero-padded to `digits`, formats to exactly
`digits` decimal digit characters. -/
theorem padded_code_props (dgts m : Nat) (hd : 1 ≤ dgts) (hm : m < 10 ^ dgts) :
    (padStartList dgts '0' (natToString m)).length = dgts ∧
    ∀ ch ∈ padStartList dgts '0' (natToString m), ch.isDigit = true := by
  have hlen := natToString_length_le m dgts hd hm
  constructor
  · simp only [padStartList, List.length_append, List.length_replicate]
    omega
  · intro ch hch
    simp only [padStartList, List.mem_append, List.mem_replicate] at hch
    rcases hch with ⟨_, rfl⟩ | hch
    · decide
    · exact natToString_digits m ch hch

/-- Claim C3: `totpVerify` accepts exactly the codes matching some counter in
the inclusive window `[-w, +w]` around `floor(timestamp / 1000 / period)`;
in particular a negative window matches nothing. -/
theorem claim3_totpVerify_window (o : OTP) (code : String) (t : Nat) (w : Int) (now : Nat)
    (hp : 0 < o.period) :
    (o.totpVerify { code := code, timestamp := some t, window := some w } now = true
      ↔ ∃ i : Int, -w ≤ i ∧ i ≤ w ∧
          o.hotp { counter := ((t / 1000 / o.period : Nat) : Int) + i } = code) ∧
    (w < 0 →
      o.totpVerify { code := code, timestamp := some t, window := some w } now = false) := by
  have main : o.totpVerify { code := code, timestamp := some t, window := some w } now = true
      ↔ ∃ i : Int, -w ≤ i ∧ i ≤ w ∧
          o.hotp { counter := ((t / 1000 / o.period : Nat) : Int) + i } = code := by
    simp only [OTP.totpVerify, Option.getD_some]
    rw [List.any_eq_true]
    constructor
    · rintro ⟨k, hk, hcode⟩
      rw [List.mem_range] at hk
      rw [decide_eq_true_eq] at hcode
      exact ⟨-w + k, by omega, by omega, hcode⟩
    · rintro ⟨i, hi1, hi2, hcode⟩
      refine ⟨(i + w).toNat, ?_, ?_⟩
      · rw [List.mem_range]
        omega
      · rw [decide_eq_true_eq]
        have e : ((t / 1000 / o.period : Nat) : Int) + (-w + ((i + w).toNat : Int))
            = ((t / 1000 / o.period : Nat) : Int) + i := by omega
        rw [e]
        exact hcode
  refine ⟨main, fun hw => ?_⟩
  rcases hb : o.totpVerify { code := code, timestamp := some t, window := some w } now with _ | _
  · rfl
  · obtain ⟨i, hi1, hi2, _⟩ := main.mp hb
    omega

theorem claim3_witness :
    0 < rfcOTP6.period ∧
    (rfcOTP6.totpVerify { code := "287082", timestamp := some 59000, window := some 1 } 0 = true
      ↔ ∃ i : Int, -1 ≤ i ∧ i ≤ 1 ∧
          rfcOTP6.hotp { counter := ((59000 / 1000 / rfcOTP6.period : Nat) : Int) + i }
            = "287082") :=
  ⟨by decide, (claim3_totpVerify_window rfcOTP6 "287082" 59000 1 0 (by decide)).1⟩

/-- Claim C4: `hotpVerify` returns true exactly when the candidate equals
`hotp` at that counter; the matching code always verifies, and the code of the
next counter fails whenever the two codes differ. -/
theorem claim4_hotpVerify (o : OTP) (c : Int) (code : String) :
    (o.hotpVerify { counter := c, code := code } = true ↔ code = o.hotp { counter := c }) ∧
    o.hotpVerify { counter := c, code := o.hotp { counter := c } } = true ∧
    (o.hotp { counter := c } ≠ o.hotp { counter := c + 1 } →
      o.hotpVerify { counter := c, code := o.hotp { counter := c + 1 } } = false) := by
  refine ⟨?_, ?_, fun hne => ?_⟩
  · simp only [OTP.hotpVerify, decide_eq_true_eq]
    exact eq_comm
  · simp [OTP.hotpVerify]
  · simp only [OTP.hotpVerify]
    exact decide_eq_false hne

theorem claim4_witness :
    rfcOTP6.hotpVerify { counter := 0, code := rfcOTP6.hotp { counter := 1 } } = false :=
  (claim4_hotpVerify rfcOTP6 0 "755224").2.2 (by decide)

/-- Claim C5: for digits ≥ 1 the code emitted by `hotp` (and hence `totp`) has
length exactly `digits` and consists of decimal digit characters. -/
theorem claim5_digit_length (o : OTP) (opts : HOTPOptions) (hd : 1 ≤ o.digits) :
    (o.hotp opts).length = o.digits ∧ ∀ ch ∈ (o.hotp opts).data, ch.isDigit = true := by
  have hpos : 0 < 10 ^ o.digits := pow_pos (by norm_num) o.digits
  simp only [OTP.hotp]
  exact padded_code_props o.digits _ hd (Nat.mod_lt _ hpos)

theorem claim5_witness :
    (rfcOTP6.hotp { counter := 3 }).length = rfcOTP6.digits ∧
    ∀ ch ∈ (rfcOTP6.hotp { counter := 3 }).data, ch.isDigit = true :=
  claim5_digit_length rfcOTP6 { counter := 3 } (by decide)

/-- Claim C6 (code evaluated at the failing input): `totp` does not reject a
zero period; the zero override is ignored by the truthiness test and the code
for the stored period is silently returned, and the constructor stores a zero
period verbatim. The spec (§4.3, §7, §9) requires nonpositive periods to be
rejected with a descriptive error. -/
theorem claim6_no_rejection_eval :
    (rfcOTP6.totp { period := some 0, timestamp := some 59000 } 0).1 = "287082" ∧
    (rfcOTP6.totp { period := some 0, timestamp := some 59000 } 0).2 = rfcOTP6 ∧
    (OTP.construct { period := some 0, secret := some rfcSecret } "unused").period = 0 := by
  refine ⟨by decide, by decide, by decide⟩

/-- Claim C7: a nonzero period override passed to `totp` is persisted into the
instance (so this call, later calls and the period getter all use it), while
`totp` never changes the algorithm, digits or secret fields. -/
theorem claim7_period_override_persists (o : OTP) (t now p : Nat) (hp : p ≠ 0) :
    (o.totp { period := some p, timestamp := some t } now).2 = { o with period := p } ∧
    ((o.totp { period := some p, timestamp := some t } now).2).period = p ∧
    (o.totp { period := some p, timestamp := some t } now).1
      = ({ o with period := p }).hotp { counter := ((t / 1000 / p : Nat) : Int) } ∧
    ∀ (opts : TOTPOptions) (now2 : Nat),
      ((o.totp opts now2).2).algorithm = o.algorithm ∧
      ((o.totp opts now2).2).digits = o.digits ∧
      ((o.totp opts now2).2).secret = o.secret := by
  refine ⟨by simp [OTP.totp, hp], by simp [OTP.totp, hp], by simp [OTP.totp, hp], ?_⟩
  intro opts now2
  rcases opts with ⟨per, ts⟩
  cases per with
  | none => simp [OTP.totp]
  | some q =>
    by_cases hq : q = 0 <;> simp [OTP.totp, hq]

theorem claim7_witness :
    (rfcOTP6.totp { period := some 60, timestamp := some 59000 } 0).2
      = { rfcOTP6 with period := 60 } :=
  (claim7_period_override_persists rfcOTP6 59000 0 60 (by decide)).1

/-- Claim C8: `hotp` is a pure function of (secret, algorithm, digits,
counter): instances agreeing on those fields produce identical codes, and
independently constructed instances with the same explicit configuration do
as well. -/
theorem claim8_determinism (o1 o2 : OTP) (ha : o1.algorithm = o2.algorithm)
    (hd : o1.digits = o2.digits) (hs : o1.secret = o2.secret) :
    (∀ c : Int, o1.hotp { counter := c } = o2.hotp { counter := c }) ∧
    ∀ (opts : OTPGeneratorOptions) (g1 g2 : String) (s : String), opts.secret = some s →
      ∀ c : Int, (OTP.construct opts g1).hotp { counter := c }
        = (OTP.construct opts g2).hotp { counter := c } := by
  constructor
  · intro c
    obtain ⟨a1, d1, s1, p1⟩ := o1
    obtain ⟨a2, d2, s2, p2⟩ := o2
    simp only at ha hd hs
    subst ha
    subst hd
    subst hs
    rfl
  · intro opts g1 g2 s hsec c
    simp [OTP.construct, hsec]

theorem claim8_witness :
    rfcOTP6.hotp { counter := 5 } = ({ rfcOTP6 with period := 77 }).hotp { counter := 5 } :=
  (claim8_determinism rfcOTP6 { rfcOTP6 with period := 77 } rfl rfl rfl).1 5

/-- Claim C9: `totpVerify` accepts a `period` field in its options but ignores
it entirely: the result is the same for every supplied override (the base
counter always comes from the instance's stored period), and — the embedding
returning no new state, matching the source, which never assigns in
`totpVerify` — the stored period is unchanged by the call. -/
theorem claim9_totpVerify_ignores_period (o : OTP) (codeS : String) (p1 p2 : Option Nat)
    (ts : Option Nat) (w : Option Int) (now : Nat) :
    o.totpVerify { code := codeS, period := p1, timestamp := ts, window := w } now
      = o.totpVerify { code := codeS, period := p2, timestamp := ts, window := w } now := rfl

/-- Claim C10: a period override of 0 is falsy, so `totp` leaves the stored
period untouched and derives the counter from the previously stored period. -/
theorem claim10_zero_override_ignored (o : OTP) (t now : Nat) (hp : 0 < o.period) :
    o.totp { period := some 0, timestamp := some t } now
      = (o.hotp { counter := ((t / 1000 / o.period : Nat) : Int) }, o) := rfl

theorem claim10_witness :
    rfcOTP6.totp { period := some 0, timestamp := some 59000 } 0
      = (rfcOTP6.hotp { counter := ((59000 / 1000 / rfcOTP6.period : Nat) : Int) }, rfcOTP6) :=
  claim10_zero_override_ignored rfcOTP6 59000 0 (by decide)

end OTPSpec
